import Mathlib

/-!
# Nova net-worth tracker: balance aggregation and the snapshot / all-time-high ledger

A shallow embedding of `src/server.js`:

* `fetchBalances` (lines 76-121): the loop over the rows of the `tokens` table, the
  inner loop over the accounts returned for each token, and the derived `net_worth`;
* `getATH` / `updateATH` (lines 56-73): the two statements run against the `ath` table;
* `storeDailySnapshot` (lines 124-147): read the high, compare, conditionally replace
  the high, append one row to the `balances` table.

Modelling conventions.

* Amounts are exact integers (`Int`, e.g. cents); JavaScript floating point is not
  modelled.
* The Plaid call `accountsBalanceGet` is an external oracle.  Each row of the
  `tokens` table is paired with the outcome that its call produced in the run under
  consideration: either the list `response.data.accounts`, or a thrown error.
* Accounts carry a `balances` object; its `current` field may be null or absent
  (`none`).
* A table is the list of its rows in insertion order.  SQLite statements are assumed
  to succeed.
* The calendar date computed from the process clock is an input of each run.
-/

namespace Nova

/-! ## Data model -/

/-- One element of `response.data.accounts`: the `subtype` and `balances.current`
(`none` when the field is null or absent). -/
structure Account where
  subtype : String
  current : Option Int
deriving DecidableEq, Repr

/-- A row of the `tokens` table (lines 42-46). -/
structure Token where
  institution : String
  access_token : String
deriving DecidableEq, Repr

/-- Outcome of `await plaidClient.accountsBalanceGet(...)` for one token: the returned
accounts, or a thrown error that lands in the `catch` block. -/
inductive Outcome where
  | ok (accounts : List Account)
  | fail
deriving DecidableEq, Repr

/-- A token row together with the outcome of its balance request. -/
structure Credential where
  token : Token
  outcome : Outcome
deriving DecidableEq, Repr

/-- The four accumulator slots of the object `balances` (lines 77-82). -/
structure Slots where
  wells_fargo_checking : Int
  wells_fargo_credit : Int
  robinhood : Int
  vanguard : Int
deriving DecidableEq, Repr

/-- The object returned by `fetchBalances`: the four slots and the `net_worth`
property assigned at lines 115-118. -/
structure Balances where
  wells_fargo_checking : Int
  wells_fargo_credit : Int
  robinhood : Int
  vanguard : Int
  net_worth : Int
deriving DecidableEq, Repr

/-- A row of the `balances` table (lines 31-40), without the autoincrement `id`,
which is the position of the row in the table. -/
structure BalanceRow where
  date : String
  wells_fargo_checking : Int
  wells_fargo_credit : Int
  robinhood : Int
  vanguard : Int
  net_worth : Int
  is_ath : Bool
deriving DecidableEq, Repr

/-- A row of the `ath` table (lines 48-52). -/
structure AthRow where
  id : Int
  value : Int
  date : String
deriving DecidableEq, Repr

/-- The database: the `balances` table (the ledger) and the `ath` table. -/
structure Db where
  balances : List BalanceRow
  ath : List AthRow
deriving DecidableEq, Repr

/-- One invocation of `storeDailySnapshot`: what the token loop meets, and the date
read from the clock. -/
structure Run where
  credentials : List Credential
  date : String
deriving DecidableEq, Repr

/-! ## fetchBalances -/

/-- The expression `account.balances.current || 0`. -/
def currentOrZero (a : Account) : Int :=
  match a.current with
  | some v => v
  | none => 0

/-- The initial value of `balances` (lines 77-82). -/
def Slots.init : Slots :=
  { wells_fargo_checking := 0, wells_fargo_credit := 0, robinhood := 0, vanguard := 0 }

/-- Body of the inner loop (lines 98-108) for one account of a token of the given
institution. -/
def accountStep (institution : String) (b : Slots) (account : Account) : Slots :=
  if institution = "wells_fargo" then
    if account.subtype = "checking" then
      { b with wells_fargo_checking := currentOrZero account }
    else if account.subtype = "credit card" then
      { b with wells_fargo_credit := currentOrZero account }
    else b
  else if institution = "robinhood" then
    { b with robinhood := b.robinhood + currentOrZero account }
  else if institution = "vanguard" then
    { b with vanguard := b.vanguard + currentOrZero account }
  else b

/-- Body of the outer loop (lines 92-112): on success the inner loop runs over the
accounts; on a thrown error the `catch` block only logs. -/
def tokenStep (b : Slots) (c : Credential) : Slots :=
  match c.outcome with
  | Outcome.ok accounts => accounts.foldl (accountStep c.token.institution) b
  | Outcome.fail => b

/-- The token loop of `fetchBalances` (lines 91-113). -/
def accumulate (credentials : List Credential) : Slots :=
  credentials.foldl tokenStep Slots.init

/-- Lines 115-120: `net_worth` is computed from the slots and the object returned. -/
def finish (b : Slots) : Balances :=
  { wells_fargo_checking := b.wells_fargo_checking
    wells_fargo_credit := b.wells_fargo_credit
    robinhood := b.robinhood
    vanguard := b.vanguard
    net_worth := b.wells_fargo_checking + b.robinhood + b.vanguard - b.wells_fargo_credit }

/-- The function `fetchBalances` (lines 76-121). -/
def fetchBalances (credentials : List Credential) : Balances :=
  finish (accumulate credentials)

/-! ## The `ath` table -/

/-- The function `getATH` (lines 56-63): the largest `value` of the `ath` table
(`ORDER BY value DESC LIMIT 1`), and `0` when the table has no row. -/
def getATH (db : Db) : Int :=
  match (db.ath.map AthRow.value).max? with
  | some v => v
  | none => 0

/-- The function `updateATH` (lines 65-73): `INSERT OR REPLACE` of the row with
primary key `1`. -/
def updateATH (db : Db) (value : Int) (date : String) : Db :=
  { db with ath := db.ath.filter (fun r => r.id ≠ 1) ++ [{ id := 1, value := value, date := date }] }

/-! ## storeDailySnapshot -/

/-- The row inserted at lines 135-139. -/
def insertedRow (date : String) (b : Balances) (isATH : Bool) : BalanceRow :=
  { date := date
    wells_fargo_checking := b.wells_fargo_checking
    wells_fargo_credit := b.wells_fargo_credit
    robinhood := b.robinhood
    vanguard := b.vanguard
    net_worth := b.net_worth
    is_ath := isATH }

/-- The function `storeDailySnapshot` (lines 124-147): the database after the run and
the snapshot it resolves to. -/
def storeDailySnapshot (db : Db) (run : Run) : Db × Balances :=
  let balances := fetchBalances run.credentials
  let currentATH := getATH db
  let isATH : Bool := decide (balances.net_worth > currentATH)
  let db1 := if isATH then updateATH db balances.net_worth run.date else db
  ({ db1 with balances := db1.balances ++ [insertedRow run.date balances isATH] }, balances)

/-- The database before any run: empty ledger, no `ath` row. -/
def Db.initial : Db := { balances := [], ath := [] }

/-- A sequence of `storeDailySnapshot` invocations, one after the other. -/
def runAll (db : Db) (runs : List Run) : Db :=
  runs.foldl (fun d r => (storeDailySnapshot d r).1) db


/-! ## Reference descriptions used to state the aggregation rules -/

/-- Whether the balance request of a credential returned. -/
def succeeded (c : Credential) : Bool :=
  match c.outcome with
  | Outcome.ok _ => true
  | Outcome.fail => false

/-- The accounts returned for a credential (none when its request failed). -/
def accountsOf (c : Credential) : List Account :=
  match c.outcome with
  | Outcome.ok accounts => accounts
  | Outcome.fail => []

/-- All accounts returned, in iteration order, by the successfully fetched credentials
of one institution. -/
def returnedAccounts (institution : String) : List Credential → List Account
  | [] => []
  | c :: cs =>
    if c.token.institution = institution then accountsOf c ++ returnedAccounts institution cs
    else returnedAccounts institution cs

/-- The amount an account reports: the number in its `current` field, and `0` when the
field holds none.  It reads the raw field of the response. -/
def reportedBalance (a : Account) : Int :=
  a.current.getD 0

/-- Reported balance of the last account of a list, and a default when the list is
empty. -/
def lastCurrent (dflt : Int) (l : List Account) : Int :=
  match l.getLast? with
  | some a => reportedBalance a
  | none => dflt

/-- Last-value-wins reading of a Wells Fargo slot: the current balance of the last
returned Wells Fargo account of the given subtype, `0` when there is none. -/
def lastOfSubtype (subtype : String) (credentials : List Credential) : Int :=
  lastCurrent 0 ((returnedAccounts "wells_fargo" credentials).filter (fun a => a.subtype = subtype))

/-- Summed reading of a brokerage slot: the sum of the reported balances (missing
counted as `0`) of all accounts returned for the institution. -/
def sumOfInstitution (institution : String) (credentials : List Credential) : Int :=
  ((returnedAccounts institution credentials).map reportedBalance).sum

/-- The same sum taken the way the loop takes it: starting from `0`, one addition per
returned account, in iteration order. -/
def runningSumOfInstitution (institution : String) (credentials : List Credential) : Int :=
  (returnedAccounts institution credentials).foldl (fun acc a => acc + reportedBalance a) 0

/-- Four linked institutions, all fetched: Wells Fargo returns two checking accounts,
two credit cards (the last without a balance) and a savings account; Robinhood three
accounts, one without a balance; Vanguard two accounts; a fourth institution one
checking account. -/
def sampleCredentials : List Credential :=
  [{ token := { institution := "wells_fargo", access_token := "access-wf" }
     outcome := Outcome.ok [{ subtype := "checking", current := some 1000 },
                            { subtype := "credit card", current := some 200 },
                            { subtype := "savings", current := some 5 },
                            { subtype := "checking", current := some 700 },
                            { subtype := "credit card", current := none }] },
   { token := { institution := "robinhood", access_token := "access-rh" }
     outcome := Outcome.ok [{ subtype := "brokerage", current := some 50 },
                            { subtype := "ira", current := none },
                            { subtype := "cash management", current := some 70 }] },
   { token := { institution := "vanguard", access_token := "access-vg" }
     outcome := Outcome.ok [{ subtype := "ira", current := some 30 },
                            { subtype := "roth", current := some 12 }] },
   { token := { institution := "chase", access_token := "access-ch" }
     outcome := Outcome.ok [{ subtype := "checking", current := some 999 }] }]

/-! ## Reference descriptions used to state the ledger rules -/

/-- The net worth of the snapshot that a run aggregates. -/
def Run.net_worth (r : Run) : Int :=
  (fetchBalances r.credentials).net_worth

/-- The snapshot stored in a ledger row. -/
def BalanceRow.toBalances (row : BalanceRow) : Balances :=
  { wells_fargo_checking := row.wells_fargo_checking
    wells_fargo_credit := row.wells_fargo_credit
    robinhood := row.robinhood
    vanguard := row.vanguard
    net_worth := row.net_worth }

/-- The rows that a sequence of runs appends when the first of them reads the high
`high`: each row is flagged when its net worth strictly exceeds the running high. -/
def appendedRows (high : Int) : List Run → List BalanceRow
  | [] => []
  | r :: rs =>
    insertedRow r.date (fetchBalances r.credentials) (decide (r.net_worth > high))
      :: appendedRows (max high r.net_worth) rs

/-- A run whose only credential is a Robinhood token returning one account with the
given current balance; its net worth is that balance. -/
def Run.single (amount : Int) (date : String) : Run :=
  { credentials :=
      [{ token := { institution := "robinhood", access_token := "token" }
         outcome := Outcome.ok [{ subtype := "brokerage", current := some amount }] }]
    date := date }

/-! ## Lemmas on the two loops -/

/-- The expression `current || 0` yields the reported amount. -/
theorem currentOrZero_eq_reportedBalance (a : Account) :
    currentOrZero a = reportedBalance a := by
  unfold currentOrZero reportedBalance
  cases a.current <;> rfl

theorem lastCurrent_cons (d : Int) (a : Account) (l : List Account) :
    lastCurrent d (a :: l) = lastCurrent (reportedBalance a) l := by
  cases l with
  | nil => simp [lastCurrent]
  | cons x xs =>
    simp only [lastCurrent, List.getLast?_cons_cons]
    rw [List.getLast?_eq_getLast (x :: xs) (List.cons_ne_nil x xs)]

theorem lastCurrent_append (d : Int) (l₁ l₂ : List Account) :
    lastCurrent d (l₁ ++ l₂) = lastCurrent (lastCurrent d l₁) l₂ := by
  induction l₁ generalizing d with
  | nil => simp [lastCurrent]
  | cons a l ih => rw [List.cons_append, lastCurrent_cons, lastCurrent_cons, ih]

/-- The inner loop for a Wells Fargo token, slot by slot. -/
theorem inner_wells_fargo (accounts : List Account) (b : Slots) :
    (accounts.foldl (accountStep "wells_fargo") b).wells_fargo_checking
        = lastCurrent b.wells_fargo_checking (accounts.filter (fun a => a.subtype = "checking"))
    ∧ (accounts.foldl (accountStep "wells_fargo") b).wells_fargo_credit
        = lastCurrent b.wells_fargo_credit (accounts.filter (fun a => a.subtype = "credit card"))
    ∧ (accounts.foldl (accountStep "wells_fargo") b).robinhood = b.robinhood
    ∧ (accounts.foldl (accountStep "wells_fargo") b).vanguard = b.vanguard := by
  induction accounts generalizing b with
  | nil => simp [lastCurrent]
  | cons a l ih =>
    obtain ⟨h1, h2, h3, h4⟩ := ih (accountStep "wells_fargo" b a)
    simp only [List.foldl_cons]
    rw [h1, h2, h3, h4]
    by_cases hc : a.subtype = "checking"
    · have hne : a.subtype ≠ "credit card" := by rw [hc]; decide
      simp [accountStep, hc, lastCurrent_cons, currentOrZero_eq_reportedBalance]
    · by_cases hk : a.subtype = "credit card"
      · simp [accountStep, hc, hk, lastCurrent_cons, currentOrZero_eq_reportedBalance]
      · simp [accountStep, hc, hk]

/-- The inner loop for a Robinhood token, slot by slot. -/
theorem inner_robinhood (accounts : List Account) (b : Slots) :
    (accounts.foldl (accountStep "robinhood") b).wells_fargo_checking = b.wells_fargo_checking
    ∧ (accounts.foldl (accountStep "robinhood") b).wells_fargo_credit = b.wells_fargo_credit
    ∧ (accounts.foldl (accountStep "robinhood") b).robinhood
        = b.robinhood + (accounts.map reportedBalance).sum
    ∧ (accounts.foldl (accountStep "robinhood") b).vanguard = b.vanguard := by
  induction accounts generalizing b with
  | nil => simp
  | cons a l ih =>
    obtain ⟨h1, h2, h3, h4⟩ := ih (accountStep "robinhood" b a)
    simp only [List.foldl_cons]
    rw [h1, h2, h3, h4]
    simp [accountStep, add_assoc, currentOrZero_eq_reportedBalance]

/-- The inner loop for a Vanguard token, slot by slot. -/
theorem inner_vanguard (accounts : List Account) (b : Slots) :
    (accounts.foldl (accountStep "vanguard") b).wells_fargo_checking = b.wells_fargo_checking
    ∧ (accounts.foldl (accountStep "vanguard") b).wells_fargo_credit = b.wells_fargo_credit
    ∧ (accounts.foldl (accountStep "vanguard") b).robinhood = b.robinhood
    ∧ (accounts.foldl (accountStep "vanguard") b).vanguard
        = b.vanguard + (accounts.map reportedBalance).sum := by
  induction accounts generalizing b with
  | nil => simp
  | cons a l ih =>
    obtain ⟨h1, h2, h3, h4⟩ := ih (accountStep "vanguard" b a)
    simp only [List.foldl_cons]
    rw [h1, h2, h3, h4]
    simp [accountStep, add_assoc, currentOrZero_eq_reportedBalance]

/-- The inner loop for a token of any other institution changes nothing. -/
theorem inner_other (institution : String) (h1 : institution ≠ "wells_fargo")
    (h2 : institution ≠ "robinhood") (h3 : institution ≠ "vanguard")
    (accounts : List Account) (b : Slots) :
    accounts.foldl (accountStep institution) b = b := by
  induction accounts generalizing b with
  | nil => rfl
  | cons a l ih =>
    simp only [List.foldl_cons]
    rw [ih]
    simp [accountStep, h1, h2, h3]

/-- The slots after the token loop started from `b`, in terms of the accounts returned
for each institution. -/
theorem outer_loop (credentials : List Credential) (b : Slots) :
    (credentials.foldl tokenStep b).wells_fargo_checking
        = lastCurrent b.wells_fargo_checking
            ((returnedAccounts "wells_fargo" credentials).filter (fun a => a.subtype = "checking"))
    ∧ (credentials.foldl tokenStep b).wells_fargo_credit
        = lastCurrent b.wells_fargo_credit
            ((returnedAccounts "wells_fargo" credentials).filter
              (fun a => a.subtype = "credit card"))
    ∧ (credentials.foldl tokenStep b).robinhood
        = b.robinhood + ((returnedAccounts "robinhood" credentials).map reportedBalance).sum
    ∧ (credentials.foldl tokenStep b).vanguard
        = b.vanguard + ((returnedAccounts "vanguard" credentials).map reportedBalance).sum := by
  induction credentials generalizing b with
  | nil => simp [returnedAccounts, lastCurrent]
  | cons c cs ih =>
    obtain ⟨h1, h2, h3, h4⟩ := ih (tokenStep b c)
    simp only [List.foldl_cons]
    rw [h1, h2, h3, h4]
    obtain ⟨⟨inst, tok⟩, out⟩ := c
    cases out with
    | fail =>
      simp only [tokenStep, returnedAccounts, accountsOf, List.nil_append]
      split_ifs <;> simp
    | ok accounts =>
      simp only [tokenStep, returnedAccounts, accountsOf]
      by_cases hw : inst = "wells_fargo"
      · subst hw
        obtain ⟨g1, g2, g3, g4⟩ := inner_wells_fargo accounts b
        rw [g1, g2, g3, g4]
        simp [lastCurrent_append]
      · by_cases hr : inst = "robinhood"
        · subst hr
          obtain ⟨g1, g2, g3, g4⟩ := inner_robinhood accounts b
          rw [g1, g2, g3, g4]
          simp [add_assoc]
        · by_cases hv : inst = "vanguard"
          · subst hv
            obtain ⟨g1, g2, g3, g4⟩ := inner_vanguard accounts b
            rw [g1, g2, g3, g4]
            simp [add_assoc]
          · rw [inner_other inst hw hr hv]
            simp [hw, hr, hv]

/-- Slots are determined by their four fields. -/
theorem Slots.ext_fields (x y : Slots) (h1 : x.wells_fargo_checking = y.wells_fargo_checking)
    (h2 : x.wells_fargo_credit = y.wells_fargo_credit) (h3 : x.robinhood = y.robinhood)
    (h4 : x.vanguard = y.vanguard) : x = y := by
  cases x; cases y; simp_all

/-- Removing the failed credentials does not change the accounts returned. -/
theorem returnedAccounts_filter (institution : String) (credentials : List Credential) :
    returnedAccounts institution (credentials.filter succeeded)
      = returnedAccounts institution credentials := by
  induction credentials with
  | nil => rfl
  | cons c cs ih =>
    obtain ⟨⟨inst, tok⟩, out⟩ := c
    cases out with
    | fail => simp [List.filter_cons, succeeded, returnedAccounts, accountsOf, ih]
    | ok accounts => simp [List.filter_cons, succeeded, returnedAccounts, ih]

/-- An institution all of whose requests failed has returned no account. -/
theorem returnedAccounts_all_failed (institution : String) (credentials : List Credential)
    (h : ∀ c ∈ credentials, c.token.institution = institution → c.outcome = Outcome.fail) :
    returnedAccounts institution credentials = [] := by
  induction credentials with
  | nil => rfl
  | cons c cs ih =>
    have hcs := ih (fun c hc => h c (List.mem_cons_of_mem _ hc))
    by_cases hi : c.token.institution = institution
    · have hf := h c (List.mem_cons_self _ _) hi
      simp [returnedAccounts, hi, accountsOf, hf, hcs]
    · simp [returnedAccounts, hi, hcs]

/-! ## The aggregation rules of `fetchBalances` -/

/-- C1: for every list of credentials and every outcome of their balance requests, the
snapshot returned by `fetchBalances` has
`net_worth = wells_fargo_checking + robinhood + vanguard - wells_fargo_credit`; and one
Wells Fargo credential returning a checking account of 1000 and a credit card of 200
gives a net worth of 800. -/
theorem fetchBalances_net_worth (credentials : List Credential) :
    (fetchBalances credentials).net_worth
        = (fetchBalances credentials).wells_fargo_checking
          + (fetchBalances credentials).robinhood
          + (fetchBalances credentials).vanguard
          - (fetchBalances credentials).wells_fargo_credit
    ∧ ∀ access_token : String,
        fetchBalances
          [{ token := { institution := "wells_fargo", access_token := access_token }
             outcome := Outcome.ok [{ subtype := "checking", current := some 1000 },
                                    { subtype := "credit card", current := some 200 }] }]
        = { wells_fargo_checking := 1000, wells_fargo_credit := 200, robinhood := 0,
            vanguard := 0, net_worth := 800 } := by
  refine ⟨rfl, ?_⟩
  intro access_token
  simp [fetchBalances, finish, accumulate, tokenStep, accountStep, currentOrZero, Slots.init]

/-- C2: `fetchBalances` is total, and the snapshot it returns is the one it returns for
the same list with the failed credentials removed; the slots of an institution all of
whose requests failed are `0`. -/
theorem fetchBalances_failures_contribute_nothing (credentials : List Credential) :
    fetchBalances credentials = fetchBalances (credentials.filter succeeded)
    ∧ ((∀ c ∈ credentials, c.token.institution = "wells_fargo" → c.outcome = Outcome.fail) →
        (fetchBalances credentials).wells_fargo_checking = 0
        ∧ (fetchBalances credentials).wells_fargo_credit = 0)
    ∧ ((∀ c ∈ credentials, c.token.institution = "robinhood" → c.outcome = Outcome.fail) →
        (fetchBalances credentials).robinhood = 0)
    ∧ ((∀ c ∈ credentials, c.token.institution = "vanguard" → c.outcome = Outcome.fail) →
        (fetchBalances credentials).vanguard = 0) := by
  obtain ⟨h1, h2, h3, h4⟩ := outer_loop credentials Slots.init
  obtain ⟨f1, f2, f3, f4⟩ := outer_loop (credentials.filter succeeded) Slots.init
  refine ⟨?_, ?_, ?_, ?_⟩
  · have hs : accumulate credentials = accumulate (credentials.filter succeeded) := by
      apply Slots.ext_fields
      · simp only [accumulate]; rw [h1, f1, returnedAccounts_filter]
      · simp only [accumulate]; rw [h2, f2, returnedAccounts_filter]
      · simp only [accumulate]; rw [h3, f3, returnedAccounts_filter]
      · simp only [accumulate]; rw [h4, f4, returnedAccounts_filter]
    simp only [fetchBalances, hs]
  · intro h
    have hr := returnedAccounts_all_failed "wells_fargo" credentials h
    simp only [fetchBalances, finish, accumulate]
    rw [h1, h2, hr]
    simp [lastCurrent, Slots.init]
  · intro h
    have hr := returnedAccounts_all_failed "robinhood" credentials h
    simp only [fetchBalances, finish, accumulate]
    rw [h3, hr]
    simp [Slots.init]
  · intro h
    have hr := returnedAccounts_all_failed "vanguard" credentials h
    simp only [fetchBalances, finish, accumulate]
    rw [h4, hr]
    simp [Slots.init]

/-- Witness for C2: a failed Wells Fargo request next to a Robinhood request returning
one account of 70. -/
theorem fetchBalances_failures_contribute_nothing_witness :
    fetchBalances
        [{ token := { institution := "wells_fargo", access_token := "a" }, outcome := Outcome.fail },
         { token := { institution := "robinhood", access_token := "b" }
           outcome := Outcome.ok [{ subtype := "brokerage", current := some 70 }] }]
      = { wells_fargo_checking := 0, wells_fargo_credit := 0, robinhood := 70, vanguard := 0,
          net_worth := 70 }
    ∧ (fetchBalances
        [{ token := { institution := "wells_fargo", access_token := "a" }, outcome := Outcome.fail },
         { token := { institution := "robinhood", access_token := "b" }
           outcome := Outcome.ok [{ subtype := "brokerage", current := some 70 }] }]).wells_fargo_checking
        = 0 := by
  refine ⟨?_, ?_⟩
  · rw [(fetchBalances_failures_contribute_nothing _).1]
    decide
  · exact ((fetchBalances_failures_contribute_nothing _).2.1 (by decide)).1

/-- Adding the reported balances one account at a time gives their sum. -/
theorem foldl_add_reportedBalance (l : List Account) (m : Int) :
    l.foldl (fun acc a => acc + reportedBalance a) m = m + (l.map reportedBalance).sum := by
  induction l generalizing m with
  | nil => simp
  | cons a l ih => simp [ih, add_assoc]

/-- C3: `wells_fargo_checking` is the reported current balance (`0` when missing) of the
last account of subtype `checking` returned, in iteration order, by a successfully
fetched Wells Fargo credential, and `0` when there is none; likewise
`wells_fargo_credit` with subtype `credit card`.  Each such account overwrites the slot
with its own reported balance, whatever the slot held (no summing), and an account of
any other institution or subtype leaves both slots as they were. -/
theorem fetchBalances_wells_fargo_last_wins (credentials : List Credential) :
    (fetchBalances credentials).wells_fargo_checking = lastOfSubtype "checking" credentials
    ∧ (fetchBalances credentials).wells_fargo_credit = lastOfSubtype "credit card" credentials
    ∧ (∀ (b : Slots) (current : Option Int),
        (accountStep "wells_fargo" b
            { subtype := "checking", current := current }).wells_fargo_checking = current.getD 0
        ∧ (accountStep "wells_fargo" b
            { subtype := "credit card", current := current }).wells_fargo_credit = current.getD 0)
    ∧ ∀ (institution : String) (b : Slots) (account : Account),
        (institution ≠ "wells_fargo"
          ∨ (account.subtype ≠ "checking" ∧ account.subtype ≠ "credit card")) →
        (accountStep institution b account).wells_fargo_checking = b.wells_fargo_checking
        ∧ (accountStep institution b account).wells_fargo_credit = b.wells_fargo_credit := by
  obtain ⟨h1, h2, -, -⟩ := outer_loop credentials Slots.init
  refine ⟨?_, ?_, ?_, ?_⟩
  · simp only [fetchBalances, finish, accumulate, lastOfSubtype]
    rw [h1]; rfl
  · simp only [fetchBalances, finish, accumulate, lastOfSubtype]
    rw [h2]; rfl
  · intro b current
    cases current <;> simp [accountStep, currentOrZero]
  · intro institution b account h
    rcases h with h | ⟨hc, hk⟩
    · simp only [accountStep, h, if_false]
      split_ifs <;> simp
    · simp only [accountStep, hc, hk, if_false]
      split_ifs <;> simp

/-- Witness for C3: on the sample credentials the checking slot is 700, the balance of
the second checking account and not 1000 or 1700; the credit slot is 0, the last credit
card having no balance, and not 200; and a savings account of 5 under a Wells Fargo
token leaves both slots as they were. -/
theorem fetchBalances_wells_fargo_last_wins_witness :
    (fetchBalances sampleCredentials).wells_fargo_checking = 700
    ∧ (fetchBalances sampleCredentials).wells_fargo_credit = 0
    ∧ (accountStep "wells_fargo"
        { wells_fargo_checking := 1, wells_fargo_credit := 2, robinhood := 3, vanguard := 4 }
        { subtype := "savings", current := some 5 }).wells_fargo_checking = 1
    ∧ (accountStep "wells_fargo"
        { wells_fargo_checking := 1, wells_fargo_credit := 2, robinhood := 3, vanguard := 4 }
        { subtype := "savings", current := some 5 }).wells_fargo_credit = 2 :=
  ⟨(fetchBalances_wells_fargo_last_wins sampleCredentials).1.trans (by decide),
   (fetchBalances_wells_fargo_last_wins sampleCredentials).2.1.trans (by decide),
   (fetchBalances_wells_fargo_last_wins sampleCredentials).2.2.2 "wells_fargo"
     { wells_fargo_checking := 1, wells_fargo_credit := 2, robinhood := 3, vanguard := 4 }
     { subtype := "savings", current := some 5 } (Or.inr ⟨by decide, by decide⟩)⟩

/-- C4: the `robinhood` slot is the sum of the reported current balances (missing
counted as `0`) of all accounts, whatever their subtype, returned by the successfully
fetched Robinhood credentials, and the `vanguard` slot is the same sum for Vanguard;
both are also the running sums taken in iteration order.  Each account adds its own
reported balance to the slot, a missing one adding `0`; on the sample credentials the
snapshot is fully defined, with `robinhood = 120`, `vanguard = 42` and
`net_worth = 862`. -/
theorem fetchBalances_brokerage_sums (credentials : List Credential) :
    (fetchBalances credentials).robinhood = sumOfInstitution "robinhood" credentials
    ∧ (fetchBalances credentials).vanguard = sumOfInstitution "vanguard" credentials
    ∧ (fetchBalances credentials).robinhood = runningSumOfInstitution "robinhood" credentials
    ∧ (fetchBalances credentials).vanguard = runningSumOfInstitution "vanguard" credentials
    ∧ (∀ (b : Slots) (subtype : String) (current : Option Int),
        (accountStep "robinhood" b { subtype := subtype, current := current }).robinhood
            = b.robinhood + current.getD 0
        ∧ (accountStep "vanguard" b { subtype := subtype, current := current }).vanguard
            = b.vanguard + current.getD 0)
    ∧ fetchBalances sampleCredentials
        = { wells_fargo_checking := 700, wells_fargo_credit := 0, robinhood := 120,
            vanguard := 42, net_worth := 862 } := by
  obtain ⟨-, -, h3, h4⟩ := outer_loop credentials Slots.init
  have r3 : (fetchBalances credentials).robinhood = sumOfInstitution "robinhood" credentials := by
    simp only [fetchBalances, finish, accumulate, sumOfInstitution]
    rw [h3]; simp [Slots.init]
  have r4 : (fetchBalances credentials).vanguard = sumOfInstitution "vanguard" credentials := by
    simp only [fetchBalances, finish, accumulate, sumOfInstitution]
    rw [h4]; simp [Slots.init]
  refine ⟨r3, r4, ?_, ?_, ?_, ?_⟩
  · rw [r3, runningSumOfInstitution, foldl_add_reportedBalance, sumOfInstitution, zero_add]
  · rw [r4, runningSumOfInstitution, foldl_add_reportedBalance, sumOfInstitution, zero_add]
  · intro b subtype current
    cases current <;> simp [accountStep, currentOrZero]
  · decide

/-- Witness for C4: on the sample credentials Robinhood's three accounts (50, none, 70)
sum to 120 and Vanguard's two accounts (30, 12) to 42. -/
theorem fetchBalances_brokerage_sums_witness :
    (fetchBalances sampleCredentials).robinhood = 120
    ∧ (fetchBalances sampleCredentials).vanguard = 42
    ∧ sumOfInstitution "robinhood" sampleCredentials = 120
    ∧ runningSumOfInstitution "vanguard" sampleCredentials = 42 :=
  ⟨(fetchBalances_brokerage_sums sampleCredentials).1.trans (by decide),
   (fetchBalances_brokerage_sums sampleCredentials).2.1.trans (by decide),
   (fetchBalances_brokerage_sums sampleCredentials).1.symm.trans (by decide),
   (fetchBalances_brokerage_sums sampleCredentials).2.2.2.1.symm.trans (by decide)⟩

/-! ## Lemmas on the `ath` table and on sequences of runs -/

theorem max?_eq_some_iff_int (l : List Int) (a : Int) :
    l.max? = some a ↔ a ∈ l ∧ ∀ b ∈ l, b ≤ a :=
  have : Std.Antisymm (fun x y : Int => x ≤ y) := ⟨fun h₁ h₂ => le_antisymm h₁ h₂⟩
  List.max?_eq_some_iff (fun a => le_refl a) (fun a b => max_choice a b)
    (fun _ _ _ => max_le_iff)

/-- No row of the `ath` table exceeds the value that `getATH` returns. -/
theorem getATH_ge (db : Db) (r : AthRow) (h : r ∈ db.ath) : r.value ≤ getATH db := by
  unfold getATH
  cases hm : (db.ath.map AthRow.value).max? with
  | none =>
    rw [List.max?_eq_none_iff] at hm
    simp at hm
    rw [hm] at h
    simp at h
  | some v =>
    exact ((max?_eq_some_iff_int _ _).1 hm).2 r.value (List.mem_map_of_mem _ h)

/-- After `updateATH` with a value above the current high, `getATH` returns it. -/
theorem getATH_updateATH (db : Db) (value : Int) (date : String) (h : getATH db < value) :
    getATH (updateATH db value date) = value := by
  have hm : ((updateATH db value date).ath.map AthRow.value).max? = some value := by
    rw [max?_eq_some_iff_int]
    refine ⟨by simp [updateATH], ?_⟩
    intro b hb
    simp only [updateATH, List.map_append, List.mem_append, List.mem_map, List.mem_filter,
      List.map_cons, List.map_nil, List.mem_singleton] at hb
    rcases hb with ⟨r, ⟨hr, -⟩, rfl⟩ | rfl
    · exact le_of_lt (lt_of_le_of_lt (getATH_ge db r hr) h)
    · exact le_refl _
  simp only [getATH, hm]

/-- The high read after a run is the larger of the high read before and the net worth. -/
theorem getATH_storeDailySnapshot (db : Db) (run : Run) :
    getATH (storeDailySnapshot db run).1 = max (getATH db) run.net_worth := by
  by_cases h : getATH db < run.net_worth
  · have hu := getATH_updateATH db run.net_worth run.date h
    have : getATH (storeDailySnapshot db run).1 = getATH (updateATH db run.net_worth run.date) := by
      simp [storeDailySnapshot, getATH, Run.net_worth] at h ⊢
      simp [h]
    rw [this, hu, max_eq_right (le_of_lt h)]
  · have : getATH (storeDailySnapshot db run).1 = getATH db := by
      simp [storeDailySnapshot, getATH, Run.net_worth] at h ⊢
      simp [not_lt.2 h]
    rw [this, max_eq_left (not_lt.1 h)]

/-- The ledger after a run: one row appended. -/
theorem balances_storeDailySnapshot (db : Db) (run : Run) :
    (storeDailySnapshot db run).1.balances
      = db.balances ++ [insertedRow run.date (fetchBalances run.credentials)
          (decide (run.net_worth > getATH db))] := by
  by_cases h : getATH db < run.net_worth
  · simp [storeDailySnapshot, Run.net_worth, updateATH] at h ⊢
    simp [h]
  · simp [storeDailySnapshot, Run.net_worth, updateATH] at h ⊢
    simp [not_lt.2 h]

/-- The ledger after a sequence of runs. -/
theorem balances_runAll (runs : List Run) (db : Db) :
    (runAll db runs).balances = db.balances ++ appendedRows (getATH db) runs := by
  induction runs generalizing db with
  | nil => simp [runAll, appendedRows]
  | cons r rs ih =>
    have h := ih (storeDailySnapshot db r).1
    simp only [runAll, List.foldl_cons] at h ⊢
    rw [h, balances_storeDailySnapshot, getATH_storeDailySnapshot]
    simp [appendedRows]

/-- The high read after a sequence of runs. -/
theorem getATH_runAll (runs : List Run) (db : Db) :
    getATH (runAll db runs) = (runs.map Run.net_worth).foldl max (getATH db) := by
  induction runs generalizing db with
  | nil => simp [runAll]
  | cons r rs ih =>
    have h := ih (storeDailySnapshot db r).1
    simp only [runAll, List.foldl_cons, List.map_cons] at h ⊢
    rw [h, getATH_storeDailySnapshot]

theorem foldl_max_ge_init (l : List Int) (m : Int) : m ≤ l.foldl max m := by
  induction l generalizing m with
  | nil => simp
  | cons x xs ih => exact le_trans (le_max_left m x) (ih (max m x))

theorem foldl_max_ge_mem (l : List Int) (m x : Int) (h : x ∈ l) : x ≤ l.foldl max m := by
  induction l generalizing m with
  | nil => simp at h
  | cons y ys ih =>
    rcases List.mem_cons.1 h with rfl | h
    · exact le_trans (le_max_right m x) (foldl_max_ge_init ys (max m x))
    · exact ih (max m y) h

theorem foldl_max_eq_init (l : List Int) (m : Int) (h : ∀ x ∈ l, x ≤ m) :
    l.foldl max m = m := by
  induction l generalizing m with
  | nil => rfl
  | cons y ys ih =>
    have hy : y ≤ m := h y (List.mem_cons_self _ _)
    simp only [List.foldl_cons, max_eq_left hy]
    exact ih m (fun x hx => h x (List.mem_cons_of_mem _ hx))

/-- The appended rows carry, in order, the dates and the snapshots of the runs. -/
theorem appendedRows_content (runs : List Run) (high : Int) :
    (appendedRows high runs).map (fun row => (row.date, row.toBalances))
      = runs.map (fun r => (r.date, fetchBalances r.credentials)) := by
  induction runs generalizing high with
  | nil => rfl
  | cons r rs ih =>
    simp only [appendedRows, List.map_cons, ih]
    rfl

theorem appendedRows_net_worth (runs : List Run) (high : Int) :
    (appendedRows high runs).map BalanceRow.net_worth = runs.map Run.net_worth := by
  induction runs generalizing high with
  | nil => rfl
  | cons r rs ih =>
    simp only [appendedRows, List.map_cons, ih]
    rfl

theorem appendedRows_length (runs : List Run) (high : Int) :
    (appendedRows high runs).length = runs.length := by
  induction runs generalizing high with
  | nil => rfl
  | cons r rs ih => simp [appendedRows, ih]

/-- A row is flagged exactly when its net worth strictly exceeds the high read by the
first run and the net worth of every earlier row. -/
theorem appendedRows_flag (runs : List Run) (high : Int) (pre post : List BalanceRow)
    (row : BalanceRow) (h : appendedRows high runs = pre ++ row :: post) :
    row.is_ath = true ↔ high < row.net_worth ∧ ∀ x ∈ pre, x.net_worth < row.net_worth := by
  induction runs generalizing high pre with
  | nil => simp [appendedRows] at h
  | cons r rs ih =>
    cases pre with
    | nil =>
      simp only [appendedRows, List.nil_append, List.cons.injEq] at h
      rw [← h.1]
      simp [insertedRow, Run.net_worth]
    | cons p ps =>
      simp only [appendedRows, List.cons_append, List.cons.injEq] at h
      rw [ih (max high r.net_worth) ps h.2, ← h.1]
      simp only [insertedRow, Run.net_worth, max_lt_iff, List.mem_cons, forall_eq_or_imp]
      tauto

/-- When some run exceeds the high read by the first, a flagged row carries the final
high. -/
theorem appendedRows_exists_flagged (runs : List Run) (high : Int)
    (h : ∃ r ∈ runs, high < r.net_worth) :
    ∃ row ∈ appendedRows high runs,
      row.net_worth = (runs.map Run.net_worth).foldl max high ∧ row.is_ath = true := by
  induction runs generalizing high with
  | nil => simp at h
  | cons r rs ih =>
    by_cases hrs : ∃ r' ∈ rs, max high r.net_worth < r'.net_worth
    · obtain ⟨row, hmem, hnw, hflag⟩ := ih (max high r.net_worth) hrs
      exact ⟨row, by simp [appendedRows, hmem], by simpa using hnw, hflag⟩
    · have hle : ∀ x ∈ rs.map Run.net_worth, x ≤ max high r.net_worth := by
        intro x hx
        obtain ⟨r', hr', rfl⟩ := List.mem_map.1 hx
        exact not_lt.1 (fun hlt => hrs ⟨r', hr', hlt⟩)
      have hhead : high < r.net_worth := by
        obtain ⟨r', hr', hlt⟩ := h
        rcases List.mem_cons.1 hr' with rfl | hr'
        · exact hlt
        · have := hle r'.net_worth (List.mem_map_of_mem _ hr')
          by_contra hc
          rw [max_eq_left (not_lt.1 hc)] at this
          exact absurd hlt (not_lt.2 this)
      refine ⟨insertedRow r.date (fetchBalances r.credentials) (decide (r.net_worth > high)),
        by simp [appendedRows], ?_, ?_⟩
      · simp only [List.map_cons, List.foldl_cons]
        rw [foldl_max_eq_init _ _ hle, max_eq_right (le_of_lt hhead)]
        rfl
      · simp [insertedRow, hhead]

/-! ## The all-time high and the ledger -/

/-- C5: one run of `storeDailySnapshot` resolves to the aggregated snapshot and appends
one record whose `is_ath` is true exactly when the snapshot's net worth is strictly
greater than the high read before the run (`0` when the `ath` table is empty); in that
case the row with key `1` of the `ath` table becomes `(net_worth, date)` and `getATH`
returns the net worth afterwards; otherwise, a tie included, the `ath` table is
unchanged. -/
theorem storeDailySnapshot_advances_iff_strictly_greater (db : Db) (run : Run) :
    (storeDailySnapshot db run).2 = fetchBalances run.credentials
    ∧ (storeDailySnapshot db run).1.balances
        = db.balances ++ [insertedRow run.date (fetchBalances run.credentials)
            (decide (getATH db < (fetchBalances run.credentials).net_worth))]
    ∧ (getATH db < (fetchBalances run.credentials).net_worth →
        (storeDailySnapshot db run).1.ath
            = db.ath.filter (fun r => r.id ≠ 1)
              ++ [{ id := 1, value := (fetchBalances run.credentials).net_worth, date := run.date }]
        ∧ getATH (storeDailySnapshot db run).1 = (fetchBalances run.credentials).net_worth)
    ∧ (¬ getATH db < (fetchBalances run.credentials).net_worth →
        (storeDailySnapshot db run).1.ath = db.ath
        ∧ getATH (storeDailySnapshot db run).1 = getATH db) := by
  refine ⟨rfl, ?_, ?_, ?_⟩
  · rw [balances_storeDailySnapshot]
    simp [Run.net_worth]
  · intro h
    refine ⟨?_, ?_⟩
    · have hd : decide ((fetchBalances run.credentials).net_worth > getATH db) = true := by
        simpa using h
      simp only [storeDailySnapshot, hd, if_true, updateATH]
    · rw [getATH_storeDailySnapshot]
      exact max_eq_right (le_of_lt h)
  · intro h
    refine ⟨?_, ?_⟩
    · have hd : decide ((fetchBalances run.credentials).net_worth > getATH db) = false := by
        simpa using h
      simp [storeDailySnapshot, hd]
    · rw [getATH_storeDailySnapshot]
      exact max_eq_left (not_lt.1 h)

/-- Witness for C5: a first run with net worth 500 is flagged and raises the high to
500; a second run with net worth 500 is not flagged and leaves the `ath` table as it
was. -/
theorem storeDailySnapshot_advances_iff_strictly_greater_witness :
    ((storeDailySnapshot Db.initial (Run.single 500 "2024-03-01")).1.balances
        = [{ date := "2024-03-01", wells_fargo_checking := 0, wells_fargo_credit := 0,
             robinhood := 500, vanguard := 0, net_worth := 500, is_ath := true }]
      ∧ getATH (storeDailySnapshot Db.initial (Run.single 500 "2024-03-01")).1 = 500)
    ∧ ((storeDailySnapshot (storeDailySnapshot Db.initial (Run.single 500 "2024-03-01")).1
          (Run.single 500 "2024-03-01")).1.ath
        = (storeDailySnapshot Db.initial (Run.single 500 "2024-03-01")).1.ath
      ∧ getATH (storeDailySnapshot (storeDailySnapshot Db.initial (Run.single 500 "2024-03-01")).1
          (Run.single 500 "2024-03-01")).1 = 500) := by
  refine ⟨⟨?_, ?_⟩, ?_, ?_⟩
  · rw [(storeDailySnapshot_advances_iff_strictly_greater Db.initial
      (Run.single 500 "2024-03-01")).2.1]
    decide
  · rw [((storeDailySnapshot_advances_iff_strictly_greater Db.initial
      (Run.single 500 "2024-03-01")).2.2.1 (by decide)).2]
    decide
  · exact ((storeDailySnapshot_advances_iff_strictly_greater _
      (Run.single 500 "2024-03-01")).2.2.2 (by decide)).1
  · rw [((storeDailySnapshot_advances_iff_strictly_greater _
      (Run.single 500 "2024-03-01")).2.2.2 (by decide)).2]
    decide

/-- C6: after any sequence of runs from the initial database, the value returned by
`getATH` is at least the net worth of every record of the ledger. -/
theorem getATH_ge_every_record (runs : List Run) (row : BalanceRow)
    (h : row ∈ (runAll Db.initial runs).balances) :
    row.net_worth ≤ getATH (runAll Db.initial runs) := by
  rw [getATH_runAll]
  rw [balances_runAll] at h
  simp only [Db.initial, List.nil_append] at h
  apply foldl_max_ge_mem
  rw [← appendedRows_net_worth runs (getATH Db.initial)]
  exact List.mem_map_of_mem _ h

/-- Witness for C6: runs with net worth 500 and then 300. -/
theorem getATH_ge_every_record_witness :
    ({ date := "2024-03-02", wells_fargo_checking := 0, wells_fargo_credit := 0,
       robinhood := 300, vanguard := 0, net_worth := 300, is_ath := false } : BalanceRow)
        ∈ (runAll Db.initial [Run.single 500 "2024-03-01", Run.single 300 "2024-03-02"]).balances
    ∧ (300 : Int)
        ≤ getATH (runAll Db.initial [Run.single 500 "2024-03-01", Run.single 300 "2024-03-02"]) :=
  ⟨by decide,
   getATH_ge_every_record [Run.single 500 "2024-03-01", Run.single 300 "2024-03-02"]
     { date := "2024-03-02", wells_fargo_checking := 0, wells_fargo_credit := 0,
       robinhood := 300, vanguard := 0, net_worth := 300, is_ath := false } (by decide)⟩

/-- C7 fails as stated: after one run with no linked credential (net worth 0) the ledger
has one record, `getATH` returns 0, and no record is flagged. -/
theorem no_flagged_record_after_zero_run :
    (runAll Db.initial [{ credentials := [], date := "2024-03-01" }]).balances
        = [{ date := "2024-03-01", wells_fargo_checking := 0, wells_fargo_credit := 0,
             robinhood := 0, vanguard := 0, net_worth := 0, is_ath := false }]
    ∧ getATH (runAll Db.initial [{ credentials := [], date := "2024-03-01" }]) = 0
    ∧ ¬ ∃ row ∈ (runAll Db.initial [{ credentials := [], date := "2024-03-01" }]).balances,
        row.net_worth = getATH (runAll Db.initial [{ credentials := [], date := "2024-03-01" }])
        ∧ row.is_ath = true := by
  decide

/-- C7 amended: after a sequence of runs from the initial database of which at least one
has a strictly positive net worth, the ledger contains a record whose net worth is the
value returned by `getATH` and whose `is_ath` is true. -/
theorem flagged_record_carries_getATH (runs : List Run) (h : ∃ r ∈ runs, 0 < r.net_worth) :
    ∃ row ∈ (runAll Db.initial runs).balances,
      row.net_worth = getATH (runAll Db.initial runs) ∧ row.is_ath = true := by
  have h0 : getATH Db.initial = 0 := rfl
  rw [getATH_runAll, balances_runAll, h0]
  simpa [Db.initial] using appendedRows_exists_flagged runs 0 h

/-- Witness for C7 amended: runs with net worth 500 and then 300. -/
theorem flagged_record_carries_getATH_witness :
    ∃ row ∈ (runAll Db.initial
        [Run.single 500 "2024-03-01", Run.single 300 "2024-03-02"]).balances,
      row.net_worth
          = getATH (runAll Db.initial [Run.single 500 "2024-03-01", Run.single 300 "2024-03-02"])
      ∧ row.is_ath = true :=
  flagged_record_carries_getATH [Run.single 500 "2024-03-01", Run.single 300 "2024-03-02"]
    ⟨Run.single 500 "2024-03-01", by decide, by decide⟩

/-- C8: after `N` runs from an empty ledger (whatever the `ath` table), the ledger holds
exactly `N` records carrying, in invocation order, the date, the four balances and the
net worth of the snapshot of each run; and every run, from any database, keeps the
records already written and appends one record with its own date and snapshot. -/
theorem ledger_is_append_only (ath : List AthRow) (runs : List Run) :
    (runAll { balances := [], ath := ath } runs).balances.length = runs.length
    ∧ (runAll { balances := [], ath := ath } runs).balances.map
          (fun row => (row.date, row.toBalances))
        = runs.map (fun r => (r.date, fetchBalances r.credentials))
    ∧ (∀ (db : Db) (run : Run), ∃ row : BalanceRow,
        (storeDailySnapshot db run).1.balances = db.balances ++ [row]
        ∧ row.date = run.date ∧ row.toBalances = fetchBalances run.credentials)
    ∧ (∀ (db : Db) (more : List Run), ∃ rows : List BalanceRow,
        (runAll db more).balances = db.balances ++ rows ∧ rows.length = more.length) := by
  refine ⟨?_, ?_, ?_, ?_⟩
  · rw [balances_runAll]
    simp [appendedRows_length]
  · rw [balances_runAll]
    simpa using appendedRows_content runs _
  · intro db run
    exact ⟨_, balances_storeDailySnapshot db run, rfl, rfl⟩
  · intro db more
    exact ⟨_, balances_runAll more db, appendedRows_length more _⟩

/-- C9 fails as stated: after a run with net worth 100 and a run with net worth 200 both
records are flagged, so the number of flagged records is 2 and not 1. -/
theorem two_flagged_records_after_increase :
    (runAll Db.initial [Run.single 100 "2024-03-01", Run.single 200 "2024-03-02"]).balances.map
        (fun row => (row.net_worth, row.is_ath)) = [(100, true), (200, true)]
    ∧ ¬ ((runAll Db.initial
          [Run.single 100 "2024-03-01", Run.single 200 "2024-03-02"]).balances.countP
            (fun row => row.is_ath) = 1) := by
  decide

/-- C9 amended: after any runs from the initial database, split the ledger at the first
record of maximal net worth (every earlier record is strictly smaller, no later record is
larger).  That record is flagged exactly when its net worth is strictly positive, and
no record after it is flagged. -/
theorem first_maximum_is_last_flagged (runs : List Run) (pre post : List BalanceRow)
    (row : BalanceRow) (h : (runAll Db.initial runs).balances = pre ++ row :: post)
    (hpre : ∀ x ∈ pre, x.net_worth < row.net_worth)
    (hpost : ∀ x ∈ post, x.net_worth ≤ row.net_worth) :
    (row.is_ath = true ↔ 0 < row.net_worth) ∧ ∀ x ∈ post, x.is_ath = false := by
  have h0 : getATH Db.initial = 0 := rfl
  rw [balances_runAll, h0] at h
  simp only [Db.initial, List.nil_append] at h
  refine ⟨?_, ?_⟩
  · rw [appendedRows_flag runs 0 pre post row h]
    exact ⟨fun hh => hh.1, fun hh => ⟨hh, hpre⟩⟩
  · intro x hx
    obtain ⟨p₁, p₂, rfl⟩ := List.append_of_mem hx
    have hsplit : appendedRows 0 runs = (pre ++ row :: p₁) ++ x :: p₂ := by
      rw [h]; simp
    have hflag := appendedRows_flag runs 0 (pre ++ row :: p₁) p₂ x hsplit
    cases hb : x.is_ath with
    | false => rfl
    | true =>
      have hlt := (hflag.1 hb).2 row (by simp)
      exact absurd hlt (not_lt.2 (hpost x (by simp)))

/-- Witness for C9 amended: runs with net worth 100, 200 and 200; the second record is
the first of maximal net worth. -/
theorem first_maximum_is_last_flagged_witness :
    (true = true ↔ (0 : Int) < 200)
    ∧ ∀ x ∈ [({ date := "2024-03-03", wells_fargo_checking := 0, wells_fargo_credit := 0,
                robinhood := 200, vanguard := 0, net_worth := 200, is_ath := false }
              : BalanceRow)],
        x.is_ath = false :=
  first_maximum_is_last_flagged
    [Run.single 100 "2024-03-01", Run.single 200 "2024-03-02", Run.single 200 "2024-03-03"]
    [{ date := "2024-03-01", wells_fargo_checking := 0, wells_fargo_credit := 0,
       robinhood := 100, vanguard := 0, net_worth := 100, is_ath := true }]
    [{ date := "2024-03-03", wells_fargo_checking := 0, wells_fargo_credit := 0,
       robinhood := 200, vanguard := 0, net_worth := 200, is_ath := false }]
    { date := "2024-03-02", wells_fargo_checking := 0, wells_fargo_credit := 0,
      robinhood := 200, vanguard := 0, net_worth := 200, is_ath := true }
    (by decide) (by decide) (by decide)

/-- C10: after any runs from the initial database, a record of the ledger is flagged
exactly when its net worth is strictly greater than 0 and than the net worth of every
earlier record; and `getATH` returns the maximum of 0 and all recorded net worths. -/
theorem flag_iff_new_positive_high (runs : List Run) (pre post : List BalanceRow)
    (row : BalanceRow) (h : (runAll Db.initial runs).balances = pre ++ row :: post) :
    (row.is_ath = true ↔ 0 < row.net_worth ∧ ∀ x ∈ pre, x.net_worth < row.net_worth)
    ∧ getATH (runAll Db.initial runs)
        = ((runAll Db.initial runs).balances.map BalanceRow.net_worth).foldl max 0 := by
  have h0 : getATH Db.initial = 0 := rfl
  refine ⟨?_, ?_⟩
  · rw [balances_runAll, h0] at h
    simp only [Db.initial, List.nil_append] at h
    exact appendedRows_flag runs 0 pre post row h
  · rw [getATH_runAll, balances_runAll, h0]
    simp [Db.initial, appendedRows_net_worth]

/-- Witness for C10: runs with net worth 100, 50 and 200; the third record is flagged and
`getATH` returns 200. -/
theorem flag_iff_new_positive_high_witness :
    (true = true ↔ (0 : Int) < 200
        ∧ ∀ x ∈ [({ date := "2024-03-01", wells_fargo_checking := 0, wells_fargo_credit := 0,
                    robinhood := 100, vanguard := 0, net_worth := 100, is_ath := true }
                  : BalanceRow),
                 { date := "2024-03-02", wells_fargo_checking := 0, wells_fargo_credit := 0,
                   robinhood := 50, vanguard := 0, net_worth := 50, is_ath := false }],
            x.net_worth < 200)
    ∧ getATH (runAll Db.initial
          [Run.single 100 "2024-03-01", Run.single 50 "2024-03-02", Run.single 200 "2024-03-03"])
        = ((runAll Db.initial
            [Run.single 100 "2024-03-01", Run.single 50 "2024-03-02",
             Run.single 200 "2024-03-03"]).balances.map BalanceRow.net_worth).foldl max 0 :=
  flag_iff_new_positive_high
    [Run.single 100 "2024-03-01", Run.single 50 "2024-03-02", Run.single 200 "2024-03-03"]
    [{ date := "2024-03-01", wells_fargo_checking := 0, wells_fargo_credit := 0,
       robinhood := 100, vanguard := 0, net_worth := 100, is_ath := true },
     { date := "2024-03-02", wells_fargo_checking := 0, wells_fargo_credit := 0,
       robinhood := 50, vanguard := 0, net_worth := 50, is_ath := false }]
    []
    { date := "2024-03-03", wells_fargo_checking := 0, wells_fargo_credit := 0,
      robinhood := 200, vanguard := 0, net_worth := 200, is_ath := true }
    (by decide)

end Nova
